import Mathlib

/-!
Verification of the Deezer OAuth authorization core of LibMusicStreamer
(`src/auth/mod.rs` and `src/auth/deezer/mod.rs`).

Rust strings are modelled as `List Char`; the markers involved are ASCII, so
character indices coincide with the byte indices used by Rust's `find` /
`rfind` / slicing.  Fallible Rust slicing (`s[a..b]` with `a > b`, which
panics at run time) is modelled by an explicit `panicked` result.  The HTTP
transport of `authenticate_application` is modelled as an injected function
from the request URL to `Option` of the response body (`none` standing for a
send failure or an unreadable body, the two transport-level error returns of
the Rust code).
-/

/-- `"access_token="`, the token marker of `extract_access_token`. -/
def tokenPat : List Char :=
  ['a', 'c', 'c', 'e', 's', 's', '_', 't', 'o', 'k', 'e', 'n', '=']

/-- `"&expires="`, the expiry marker of `extract_access_token`. -/
def expiresPat : List Char :=
  ['&', 'e', 'x', 'p', 'i', 'r', 'e', 's', '=']

/-- `"?code="`, the marker searched by `parse_response_code`. -/
def qcodePat : List Char :=
  ['?', 'c', 'o', 'd', 'e', '=']

/-- `"https://connect.deezer.com/oauth/auth.php?app_id="`, the base of the
authorize link built by `get_authorize_link`. -/
def authBase : List Char :=
  ['h', 't', 't', 'p', 's', ':', '/', '/', 'c', 'o', 'n', 'n', 'e', 'c', 't', '.', 'd', 'e', 'e', 'z', 'e', 'r', '.', 'c', 'o', 'm', '/', 'o', 'a', 'u', 't', 'h', '/', 'a', 'u', 't', 'h', '.', 'p', 'h', 'p', '?', 'a', 'p', 'p', '_', 'i', 'd', '=']

/-- `"&redirect_uri="`, the middle separator of the authorize link. -/
def redirectParam : List Char :=
  ['&', 'r', 'e', 'd', 'i', 'r', 'e', 'c', 't', '_', 'u', 'r', 'i', '=']

/-- `"&perms=basic_access"`, the fixed scope suffix of the authorize link. -/
def permsSuffix : List Char :=
  ['&', 'p', 'e', 'r', 'm', 's', '=', 'b', 'a', 's', 'i', 'c', '_', 'a', 'c', 'c', 'e', 's', 's']

/-- `"https://connect.deezer.com/oauth/access_token.php?app_id="`, the base of
the token-exchange URL built by `authenticate_application`. -/
def exchangeBase : List Char :=
  ['h', 't', 't', 'p', 's', ':', '/', '/', 'c', 'o', 'n', 'n', 'e', 'c', 't', '.', 'd', 'e', 'e', 'z', 'e', 'r', '.', 'c', 'o', 'm', '/', 'o', 'a', 'u', 't', 'h', '/', 'a', 'c', 'c', 'e', 's', 's', '_', 't', 'o', 'k', 'e', 'n', '.', 'p', 'h', 'p', '?', 'a', 'p', 'p', '_', 'i', 'd', '=']

/-- `"&secret="`, separator of the token-exchange URL. -/
def secretParam : List Char :=
  ['&', 's', 'e', 'c', 'r', 'e', 't', '=']

/-- `"&code="`, separator of the token-exchange URL. -/
def codeParam : List Char :=
  ['&', 'c', 'o', 'd', 'e', '=']

/-- Rust `str::find` for a substring pattern: index of the first occurrence. -/
def findSub (pat : List Char) : List Char → Option Nat
  | [] => if List.isPrefixOf pat [] then some 0 else none
  | c :: rest =>
    if List.isPrefixOf pat (c :: rest) then some 0
    else (findSub pat rest).map (· + 1)

/-- Rust `str::rfind` for a substring pattern: index of the last occurrence. -/
def rfindSub (pat : List Char) : List Char → Option Nat
  | [] => if List.isPrefixOf pat [] then some 0 else none
  | c :: rest =>
    match rfindSub pat rest with
    | some i => some (i + 1)
    | none => if List.isPrefixOf pat (c :: rest) then some 0 else none

/-- `pat` occurs in `s` starting at index `j`. -/
def occAt (pat s : List Char) (j : Nat) : Prop :=
  List.isPrefixOf pat (s.drop j) = true

instance (pat s : List Char) (j : Nat) : Decidable (occAt pat s j) := by
  unfold occAt; infer_instance

/-- Boolean containment test, via `findSub`. -/
def occursInB (pat s : List Char) : Bool :=
  (findSub pat s).isSome

/-- `AuthorizationStatus` from `src/auth/mod.rs`: the code has exactly these
four variants (there is no `CodeReceived` variant). -/
inductive AuthorizationStatus where
  | Nothing
  | UserAuthentication
  | TokenAquired
  | AuthorizationCompleted
deriving DecidableEq

/-- Rank of a code status on the spec's five-step ladder
`NotStarted(0) < AwaitingUserAuthorization(1) < CodeReceived(2) <
TokenAcquired(3) < Completed(4)`; the code's four statuses embed into it,
leaving rank 2 (`CodeReceived`) unused. -/
def specRank : AuthorizationStatus → Nat
  | .Nothing => 0
  | .UserAuthentication => 1
  | .TokenAquired => 3
  | .AuthorizationCompleted => 4

/-- The spec rank that `CodeReceived` would occupy. -/
def codeReceivedRank : Nat := 2

/-- The `AuthDeezer` struct: status, token and expires fields. -/
structure AuthDeezer where
  status : AuthorizationStatus
  token : List Char
  expires : List Char
deriving DecidableEq

/-- `AuthDeezer::new`: status `Nothing`, empty token and expires. -/
def AuthDeezer.new : AuthDeezer :=
  { status := .Nothing, token := [], expires := [] }

/-- Result of `extract_access_token`: `Ok((token, expires))`, the `Err`
return, or a run-time panic of the slicing `response[(begin+13)..end]`
when `begin + 13 > end`. -/
inductive ExtractResult where
  | ok (token expires : List Char)
  | parseError
  | panicked
deriving DecidableEq

/-- `AuthDeezer::extract_access_token`: `find` the first `access_token=`,
`rfind` the last `&expires=`, slice between / after them.  The Rust byte
slice `response[(begin + token_pattern.len())..end]` panics when its start
exceeds `end`; that is the `panicked` branch. -/
def extract_access_token (response : List Char) : ExtractResult :=
  match findSub tokenPat response with
  | some b =>
    match rfindSub expiresPat response with
    | some e =>
      if b + tokenPat.length ≤ e then
        .ok ((response.drop (b + tokenPat.length)).take (e - (b + tokenPat.length)))
          (response.drop (e + expiresPat.length))
      else .panicked
    | none => .parseError
  | none => .parseError

/-- `AuthDeezer::get_authorize_link`: builds the authorize URL by plain
concatenation and unconditionally sets the status to `UserAuthentication`.
Returns the updated session and the URL. -/
def get_authorize_link (s : AuthDeezer) (app_id redirect_uri : List Char) :
    AuthDeezer × List Char :=
  ({ s with status := .UserAuthentication },
    authBase ++ app_id ++ redirectParam ++ redirect_uri ++ permsSuffix)

/-- `AuthDeezer::parse_response_code`: `rfind("?code=")` and return everything
after the marker, or `None`. -/
def parse_response_code (response : List Char) : Option (List Char) :=
  match rfindSub qcodePat response with
  | some x => some (response.drop (x + 6))
  | none => none

/-- The method call `self.parse_response_code(response)`: the receiver is
`&self`, so the session is returned unchanged next to the parse result. -/
def parse_response_code_call (s : AuthDeezer) (response : List Char) :
    AuthDeezer × Option (List Char) :=
  (s, parse_response_code response)

/-- `AuthDeezer::save_token`: stores the token and sets status
`TokenAquired`. -/
def save_token (s : AuthDeezer) (token : List Char) : AuthDeezer :=
  { s with token := token, status := .TokenAquired }

/-- `AuthDeezer::get_token`: returns a copy of the token. -/
def get_token (s : AuthDeezer) : List Char :=
  s.token

/-- Outcome of `authenticate_application`: success, one of the two
transport-level `Err` returns (send failure / unreadable body), the parse
`Err` propagated by `try!`, or a panic inside `extract_access_token`. -/
inductive ExchangeOutcome where
  | success
  | transportError
  | parseError
  | panicked
deriving DecidableEq

/-- `AuthDeezer::authenticate_application`: builds the exchange URL, sends it
through the injected transport `stub`, and on a readable body runs
`extract_access_token`; on `Ok` it calls `save_token`, stores `expires` and
sets status `AuthorizationCompleted`; every error path returns before any
field is written. -/
def authenticate_application (s : AuthDeezer)
    (stub : List Char → Option (List Char))
    (app_id app_secret code : List Char) : AuthDeezer × ExchangeOutcome :=
  match stub (exchangeBase ++ app_id ++ secretParam ++ app_secret ++ codeParam ++ code) with
  | none => (s, .transportError)
  | some body =>
    match extract_access_token body with
    | .ok token expires =>
      let s1 := save_token s token
      let s2 := { s1 with expires := expires }
      ({ s2 with status := .AuthorizationCompleted }, .success)
    | .parseError => (s, .parseError)
    | .panicked => (s, .panicked)

/-- States reachable from `AuthDeezer::new` through the public operations
(`status` and `get_token` are read-only and do not change the state). -/
inductive Reachable : AuthDeezer → Prop where
  | init : Reachable AuthDeezer.new
  | authorize (s : AuthDeezer) (a u : List Char) :
      Reachable s → Reachable (get_authorize_link s a u).1
  | parse (s : AuthDeezer) (r : List Char) :
      Reachable s → Reachable (parse_response_code_call s r).1
  | exchange (s : AuthDeezer) (stub : List Char → Option (List Char))
      (a sec c : List Char) :
      Reachable s → Reachable (authenticate_application s stub a sec c).1
  | save (s : AuthDeezer) (t : List Char) :
      Reachable s → Reachable (save_token s t)

/-- A prefix decomposes the list: `l = p ++ l.drop p.length`. -/
theorem isPrefixOf_eq_append : ∀ (p l : List Char),
    List.isPrefixOf p l = true → l = p ++ l.drop p.length
  | [], l, _ => rfl
  | a :: as, [], h => by simp [List.isPrefixOf] at h
  | a :: as, b :: bs, h => by
    rw [List.isPrefixOf_cons₂, Bool.and_eq_true, beq_iff_eq] at h
    obtain ⟨rfl, h2⟩ := h
    simpa using isPrefixOf_eq_append as bs h2

/-- `p` is a prefix of `p ++ r`. -/
theorem isPrefixOf_append : ∀ (p r : List Char),
    List.isPrefixOf p (p ++ r) = true
  | [], r => by simp
  | a :: as, r => by
    rw [List.cons_append, List.isPrefixOf_cons₂, Bool.and_eq_true, beq_iff_eq]
    exact ⟨rfl, isPrefixOf_append as r⟩

theorem occAt_cons_succ (pat : List Char) (c : Char) (s : List Char) (j : Nat) :
    occAt pat (c :: s) (j + 1) ↔ occAt pat s j := by
  simp [occAt]

theorem occAt_cons_zero (pat : List Char) (c : Char) (s : List Char) :
    occAt pat (c :: s) 0 ↔ List.isPrefixOf pat (c :: s) = true := by
  simp [occAt]

/-- Soundness and minimality of `findSub`: it returns the first occurrence. -/
theorem findSub_some (pat : List Char) : ∀ (s : List Char) (i : Nat),
    findSub pat s = some i →
    occAt pat s i ∧ ∀ j, j < i → ¬ occAt pat s j := by
  intro s
  induction s with
  | nil =>
    intro i h
    cases hp : List.isPrefixOf pat ([] : List Char) with
    | true =>
      simp [findSub, hp] at h
      subst h
      exact ⟨by simpa [occAt] using hp, by omega⟩
    | false => simp [findSub, hp] at h
  | cons c rest ih =>
    intro i h
    cases hp : List.isPrefixOf pat (c :: rest) with
    | true =>
      simp [findSub, hp] at h
      subst h
      exact ⟨by simpa [occAt] using hp, by omega⟩
    | false =>
      simp [findSub, hp, Option.map_eq_some'] at h
      obtain ⟨i', hi', rfl⟩ := h
      obtain ⟨h1, h2⟩ := ih i' hi'
      refine ⟨(occAt_cons_succ pat c rest i').2 h1, ?_⟩
      intro j hj
      cases j with
      | zero => simp [occAt, hp]
      | succ j' =>
        rw [occAt_cons_succ]
        exact h2 j' (by omega)

/-- Completeness of `findSub`: any occurrence makes it succeed. -/
theorem findSub_isSome_of_occ (pat : List Char) : ∀ (s : List Char) (j : Nat),
    occAt pat s j → (findSub pat s).isSome = true := by
  intro s
  induction s with
  | nil =>
    intro j h
    have : List.isPrefixOf pat ([] : List Char) = true := by
      simpa [occAt] using h
    simp [findSub, this]
  | cons c rest ih =>
    intro j h
    cases hp : List.isPrefixOf pat (c :: rest) with
    | true => simp [findSub, hp]
    | false =>
      cases j with
      | zero => rw [occAt_cons_zero] at h; rw [h] at hp; cases hp
      | succ j' =>
        rw [occAt_cons_succ] at h
        simp [findSub, hp, Option.isSome_map]
        exact ih j' h

/-- If `findSub` fails there is no occurrence. -/
theorem findSub_none (pat s : List Char) (h : findSub pat s = none) :
    ∀ j, ¬ occAt pat s j := by
  intro j hocc
  have := findSub_isSome_of_occ pat s j hocc
  rw [h] at this
  cases this

/-- The first occurrence determines the value of `findSub`. -/
theorem findSub_eq_of_first (pat s : List Char) (i : Nat)
    (h : occAt pat s i) (hmin : ∀ j, j < i → ¬ occAt pat s j) :
    findSub pat s = some i := by
  have hs := findSub_isSome_of_occ pat s i h
  cases hk : findSub pat s with
  | none => rw [hk] at hs; cases hs
  | some k =>
    obtain ⟨hk1, hk2⟩ := findSub_some pat s k hk
    rcases Nat.lt_trichotomy k i with h1 | h1 | h1
    · exact absurd hk1 (hmin k h1)
    · rw [h1]
    · exact absurd h (hk2 i h1)

/-- Completeness of `rfindSub`: any occurrence makes it succeed. -/
theorem rfindSub_isSome_of_occ (pat : List Char) : ∀ (s : List Char) (j : Nat),
    occAt pat s j → (rfindSub pat s).isSome = true := by
  intro s
  induction s with
  | nil =>
    intro j h
    have : List.isPrefixOf pat ([] : List Char) = true := by
      simpa [occAt] using h
    simp [rfindSub, this]
  | cons c rest ih =>
    intro j h
    cases hr : rfindSub pat rest with
    | some i => simp [rfindSub, hr]
    | none =>
      cases j with
      | zero =>
        rw [occAt_cons_zero] at h
        simp [rfindSub, hr, h]
      | succ j' =>
        rw [occAt_cons_succ] at h
        have := ih j' h
        rw [hr] at this
        cases this

/-- Soundness and maximality of `rfindSub` (for a non-empty pattern): it
returns the last occurrence. -/
theorem rfindSub_some (pat : List Char) (hpat : pat ≠ []) :
    ∀ (s : List Char) (i : Nat), rfindSub pat s = some i →
    occAt pat s i ∧ ∀ j, i < j → ¬ occAt pat s j := by
  intro s
  induction s with
  | nil =>
    intro i h
    obtain ⟨p, ps, rfl⟩ : ∃ p ps, pat = p :: ps := by
      cases pat with
      | nil => exact absurd rfl hpat
      | cons p ps => exact ⟨p, ps, rfl⟩
    simp [rfindSub, List.isPrefixOf] at h
  | cons c rest ih =>
    intro i h
    cases hr : rfindSub pat rest with
    | some i' =>
      simp [rfindSub, hr] at h
      subst h
      obtain ⟨h1, h2⟩ := ih i' hr
      refine ⟨(occAt_cons_succ pat c rest i').2 h1, ?_⟩
      intro j hj
      cases j with
      | zero => omega
      | succ j' =>
        rw [occAt_cons_succ]
        exact h2 j' (by omega)
    | none =>
      cases hp : List.isPrefixOf pat (c :: rest) with
      | true =>
        simp [rfindSub, hr, hp] at h
        subst h
        refine ⟨(occAt_cons_zero pat c rest).2 hp, ?_⟩
        intro j hj
        cases j with
        | zero => omega
        | succ j' =>
          rw [occAt_cons_succ]
          intro hocc
          have := rfindSub_isSome_of_occ pat rest j' hocc
          rw [hr] at this
          cases this
      | false => simp [rfindSub, hr, hp] at h

/-- If `rfindSub` fails there is no occurrence. -/
theorem rfindSub_none (pat s : List Char) (h : rfindSub pat s = none) :
    ∀ j, ¬ occAt pat s j := by
  intro j hocc
  have := rfindSub_isSome_of_occ pat s j hocc
  rw [h] at this
  cases this

/-- The last occurrence determines the value of `rfindSub`. -/
theorem rfindSub_eq_of_last (pat : List Char) (hpat : pat ≠ []) (s : List Char)
    (i : Nat) (h : occAt pat s i) (hmax : ∀ j, i < j → ¬ occAt pat s j) :
    rfindSub pat s = some i := by
  have hs := rfindSub_isSome_of_occ pat s i h
  cases hk : rfindSub pat s with
  | none => rw [hk] at hs; cases hs
  | some k =>
    obtain ⟨hk1, hk2⟩ := rfindSub_some pat hpat s k hk
    rcases Nat.lt_trichotomy k i with h1 | h1 | h1
    · exact absurd h (hk2 i h1)
    · rw [h1]
    · exact absurd hk1 (hmax k h1)

/-- Dropping past a left append block: `(l ++ r).drop (l.length + k) = r.drop k`. -/
theorem drop_append_plus (l r : List Char) (k : Nat) :
    (l ++ r).drop (l.length + k) = r.drop k := by
  rw [← List.drop_drop, List.drop_left]

/-- If `occursInB pat s = false` there is no occurrence of `pat` in `s`. -/
theorem occursInB_false (pat s : List Char) (h : occursInB pat s = false) :
    ∀ j, ¬ occAt pat s j := by
  intro j hocc
  have := findSub_isSome_of_occ pat s j hocc
  unfold occursInB at h
  rw [h] at this
  cases this

/-- A non-empty pattern occurring at `j` forces `j` inside the list. -/
theorem occAt_lt_length (pat s : List Char) (j : Nat) (hpat : pat ≠ [])
    (h : occAt pat s j) : j < s.length := by
  by_contra hle
  have hnil : s.drop j = [] := List.drop_eq_nil_iff.2 (by omega)
  unfold occAt at h
  rw [hnil] at h
  obtain ⟨p, ps, rfl⟩ : ∃ p ps, pat = p :: ps := by
    cases pat with
    | nil => exact absurd rfl hpat
    | cons p ps => exact ⟨p, ps, rfl⟩
  simp [List.isPrefixOf] at h

/-- C8: `get_authorize_link` returns exactly the fixed base, then the app id,
then `&redirect_uri=`, then the redirect URI, then the fixed scope
`&perms=basic_access`; in particular the URL starts with the fixed base and
ends with the fixed scope suffix, for every session and inputs. -/
theorem claim_C8_authorize_url (s : AuthDeezer) (app_id redirect_uri : List Char) :
    (get_authorize_link s app_id redirect_uri).2
      = authBase ++ app_id ++ redirectParam ++ redirect_uri ++ permsSuffix ∧
    (∃ rest, (get_authorize_link s app_id redirect_uri).2 = authBase ++ rest) ∧
    (∃ front, (get_authorize_link s app_id redirect_uri).2 = front ++ permsSuffix) := by
  refine ⟨rfl, ⟨app_id ++ redirectParam ++ redirect_uri ++ permsSuffix, ?_⟩,
    ⟨authBase ++ app_id ++ redirectParam ++ redirect_uri, ?_⟩⟩ <;>
    simp [get_authorize_link, List.append_assoc]

/-- C2 (amended): `get_authorize_link` always sets the status to exactly
`UserAuthentication`: the result is never below `UserAuthentication`, and a
second call leaves the status where the first call put it; but (see the
counterexample) a status strictly past `UserAuthentication` is regressed. -/
theorem claim_C2_amended (s : AuthDeezer) (a u : List Char) :
    (get_authorize_link s a u).1.status = .UserAuthentication ∧
    specRank .UserAuthentication ≤ specRank (get_authorize_link s a u).1.status ∧
    (get_authorize_link (get_authorize_link s a u).1 a u).1.status
      = (get_authorize_link s a u).1.status :=
  ⟨rfl, Nat.le_refl _, rfl⟩

/-- C2 (counterexample): the reachable session obtained by `save_token` has
status `TokenAquired` (spec rank 3, past `UserAuthentication`), yet calling
`get_authorize_link` moves its status strictly backwards. -/
theorem claim_C2_counterexample :
    Reachable (save_token AuthDeezer.new ['t']) ∧
    1 ≤ specRank (save_token AuthDeezer.new ['t']).status ∧
    specRank (get_authorize_link (save_token AuthDeezer.new ['t']) ['1'] ['u']).1.status
      < specRank (save_token AuthDeezer.new ['t']).status :=
  ⟨Reachable.save AuthDeezer.new ['t'] Reachable.init, by decide, by decide⟩

/-- C3 (counterexample): a reachable state with a non-empty token whose status
is strictly below `TokenAquired`: save a token, then call
`get_authorize_link`, which resets the status but keeps the token. -/
theorem claim_C3_counterexample :
    Reachable (get_authorize_link (save_token AuthDeezer.new ['t']) ['1'] ['u']).1 ∧
    (get_authorize_link (save_token AuthDeezer.new ['t']) ['1'] ['u']).1.token ≠ [] ∧
    specRank (get_authorize_link (save_token AuthDeezer.new ['t']) ['1'] ['u']).1.status
      < specRank AuthorizationStatus.TokenAquired :=
  ⟨Reachable.authorize _ ['1'] ['u'] (Reachable.save AuthDeezer.new ['t'] Reachable.init),
    by decide, by decide⟩

/-- C3 (amended): the invariant holds immediately after the operations that
write the token — `save_token` leaves status `TokenAquired` and a successful
`authenticate_application` leaves status `AuthorizationCompleted` — but it is
not preserved by every operation (see the counterexample), and `Completed`
does not imply a non-empty token (see C10). -/
theorem claim_C3_amended :
    (∀ (s : AuthDeezer) (t : List Char), (save_token s t).status = .TokenAquired) ∧
    (∀ (s : AuthDeezer) (stub : List Char → Option (List Char)) (a sec c : List Char),
      (authenticate_application s stub a sec c).2 = .success →
      (authenticate_application s stub a sec c).1.status = .AuthorizationCompleted) := by
  constructor
  · intro s t
    rfl
  · intro s stub a sec c h
    unfold authenticate_application at h ⊢
    cases hs : stub (exchangeBase ++ a ++ secretParam ++ sec ++ codeParam ++ c) with
    | none =>
      rw [hs] at h
      simp at h
    | some body =>
      rw [hs] at h
      cases he : extract_access_token body with
      | ok t e => simp [he]
      | parseError => simp [he] at h
      | panicked => simp [he] at h

/-- C3 (witness): the amended statement applied to a concrete save and a
concrete successful exchange. -/
theorem claim_C3_witness :
    (save_token AuthDeezer.new ['t']).status = .TokenAquired ∧
    (authenticate_application AuthDeezer.new
        (fun _ => some (tokenPat ++ ['X'] ++ expiresPat)) ['1'] ['s'] ['c']).1.status
      = .AuthorizationCompleted :=
  ⟨claim_C3_amended.1 AuthDeezer.new ['t'],
    claim_C3_amended.2 AuthDeezer.new (fun _ => some (tokenPat ++ ['X'] ++ expiresPat))
      ['1'] ['s'] ['c'] (by decide)⟩

/-- C4 (counterexample): on the fresh (reachable) session,
`parse_response_code` succeeds on `?code=a` yet the session status afterwards
stays `Nothing`, whose spec rank is strictly below the rank `CodeReceived`
would occupy — the code never advances any status on a successful parse (its
status enumeration has no `CodeReceived` at all). -/
theorem claim_C4_counterexample :
    Reachable AuthDeezer.new ∧
    (parse_response_code_call AuthDeezer.new (qcodePat ++ ['a'])).2 = some ['a'] ∧
    specRank (parse_response_code_call AuthDeezer.new (qcodePat ++ ['a'])).1.status
      < codeReceivedRank :=
  ⟨Reachable.init, by decide, by decide⟩

/-- C4 (amended): `parse_response_code` takes the session by shared reference
and never mutates it: after any call, successful or not, the session — and in
particular its status — is exactly what it was before. -/
theorem claim_C4_amended (s : AuthDeezer) (response : List Char) :
    (parse_response_code_call s response).1 = s ∧
    specRank (parse_response_code_call s response).1.status = specRank s.status :=
  ⟨rfl, rfl⟩

/-- C7: whenever `authenticate_application` returns the transport error or the
parse error, the session is returned exactly as it was: no field is written on
any error path, so the caller may retry. -/
theorem claim_C7_error_leaves_state (s : AuthDeezer)
    (stub : List Char → Option (List Char)) (a sec c : List Char)
    (h : (authenticate_application s stub a sec c).2 = .transportError ∨
      (authenticate_application s stub a sec c).2 = .parseError) :
    (authenticate_application s stub a sec c).1 = s := by
  unfold authenticate_application at h ⊢
  cases hs : stub (exchangeBase ++ a ++ secretParam ++ sec ++ codeParam ++ c) with
  | none => rfl
  | some body =>
    rw [hs] at h
    cases he : extract_access_token body with
    | ok t e => simp [he] at h
    | parseError => simp [he]
    | panicked => simp [he] at h

/-- C7 (witness): a failing transport leaves the fresh session untouched. -/
theorem claim_C7_witness :
    (authenticate_application AuthDeezer.new (fun _ => none) ['1'] ['s'] ['c']).1
      = AuthDeezer.new :=
  claim_C7_error_leaves_state AuthDeezer.new (fun _ => none) ['1'] ['s'] ['c'] (Or.inl rfl)

/-- C1 (code bug): on a body whose first `access_token=` marker ends after the
start of the last `&expires=` marker, `extract_access_token` does not return
the parse `Err`: the Rust slice `response[(begin + 13)..end]` has start > end
and panics.  Two inverted-marker inputs are evaluated to the panic branch. -/
theorem claim_C1_inverted_markers_panic :
    extract_access_token (expiresPat ++ tokenPat) = .panicked ∧
    extract_access_token (expiresPat ++ ['3', '6', '0', '0'] ++ tokenPat ++ ['X'])
      = .panicked := by
  constructor <;> decide

/-- C10: `extract_access_token` accepts empty token and empty expiry slices,
and a body `access_token=&expires=3600` drives `authenticate_application` to
`AuthorizationCompleted` with an empty stored token, for every session. -/
theorem claim_C10_empty_token_accepted :
    extract_access_token (tokenPat ++ expiresPat ++ ['3', '6', '0', '0'])
      = .ok [] ['3', '6', '0', '0'] ∧
    extract_access_token (tokenPat ++ ['X', 'Y', 'Z'] ++ expiresPat)
      = .ok ['X', 'Y', 'Z'] [] ∧
    ∀ (s : AuthDeezer) (a sec c : List Char),
      (authenticate_application s
          (fun _ => some (tokenPat ++ expiresPat ++ ['3', '6', '0', '0'])) a sec c).2
        = .success ∧
      (authenticate_application s
          (fun _ => some (tokenPat ++ expiresPat ++ ['3', '6', '0', '0'])) a sec c).1.status
        = .AuthorizationCompleted ∧
      get_token (authenticate_application s
          (fun _ => some (tokenPat ++ expiresPat ++ ['3', '6', '0', '0'])) a sec c).1
        = [] := by
  refine ⟨by decide, by decide, ?_⟩
  intro s a sec c
  exact ⟨rfl, rfl, rfl⟩

/-- C5: on any input, if `parse_response_code` returns a code then the input
splits as a prefix, one occurrence of `?code=`, and the returned code — the
occurrence being the last one (nothing after it starts another occurrence) and
the code being returned unmodified; it returns `None` exactly when the input
contains no `?code=` at all. -/
theorem claim_C5_parse_code_last_match (s : List Char) :
    (∀ code, parse_response_code s = some code →
      ∃ x, occAt qcodePat s x ∧ (∀ j, x < j → ¬ occAt qcodePat s j) ∧
        code = s.drop (x + qcodePat.length) ∧
        s = s.take x ++ qcodePat ++ code) ∧
    (parse_response_code s = none ↔ ∀ j, ¬ occAt qcodePat s j) := by
  constructor
  · intro code h
    unfold parse_response_code at h
    cases hr : rfindSub qcodePat s with
    | none =>
      rw [hr] at h
      simp at h
    | some x =>
      rw [hr] at h
      simp at h
      obtain ⟨h1, h2⟩ := rfindSub_some qcodePat (by decide) s x hr
      have hd : s.drop x = qcodePat ++ (s.drop x).drop qcodePat.length :=
        isPrefixOf_eq_append qcodePat (s.drop x) h1
      have hdd : (s.drop x).drop qcodePat.length = s.drop (x + qcodePat.length) := by
        rw [List.drop_drop]
      refine ⟨x, h1, h2, h.symm, ?_⟩
      rw [← h]
      calc s = s.take x ++ s.drop x := (List.take_append_drop x s).symm
      _ = s.take x ++ (qcodePat ++ s.drop (x + qcodePat.length)) := by rw [hd, hdd]
      _ = s.take x ++ qcodePat ++ s.drop (x + qcodePat.length) :=
        (List.append_assoc _ _ _).symm
  · constructor
    · intro hnone j
      unfold parse_response_code at hnone
      cases hr : rfindSub qcodePat s with
      | none => exact rfindSub_none qcodePat s hr j
      | some x =>
        rw [hr] at hnone
        simp at hnone
    · intro hall
      unfold parse_response_code
      cases hr : rfindSub qcodePat s with
      | none => rfl
      | some x =>
        exact absurd (rfindSub_some qcodePat (by decide) s x hr).1 (hall x)

/-- C5 (witness): the theorem applied to a redirect with two `?code=`
occurrences; the code after the second (last) occurrence is returned. -/
theorem claim_C5_witness :
    ∃ x, occAt qcodePat (['u'] ++ qcodePat ++ ['v'] ++ qcodePat ++ ['a', 'b']) x ∧
      (∀ j, x < j →
        ¬ occAt qcodePat (['u'] ++ qcodePat ++ ['v'] ++ qcodePat ++ ['a', 'b']) j) ∧
      ['a', 'b'] = (['u'] ++ qcodePat ++ ['v'] ++ qcodePat ++ ['a', 'b']).drop
        (x + qcodePat.length) ∧
      ['u'] ++ qcodePat ++ ['v'] ++ qcodePat ++ ['a', 'b']
        = (['u'] ++ qcodePat ++ ['v'] ++ qcodePat ++ ['a', 'b']).take x
          ++ qcodePat ++ ['a', 'b'] :=
  (claim_C5_parse_code_last_match
    (['u'] ++ qcodePat ++ ['v'] ++ qcodePat ++ ['a', 'b'])).1 ['a', 'b'] (by decide)

/-- C6: whenever the first occurrence of `access_token=` ends at or before the
start of the last occurrence of `&expires=`, `extract_access_token` succeeds
and the input decomposes as prefix, token marker, returned token, expiry
marker, returned expiry (the length equation pinning the token exactly between
the end of the first token marker and the start of the last expiry marker);
if either marker is absent the result is the parse error.  The spec's example
body evaluates to `("XYZ", "3600")`. -/
theorem claim_C6_extract_between_markers :
    (∀ (s : List Char) (b e : Nat),
      occAt tokenPat s b → (∀ j, j < b → ¬ occAt tokenPat s j) →
      occAt expiresPat s e → (∀ j, e < j → ¬ occAt expiresPat s j) →
      b + tokenPat.length ≤ e →
      ∃ t ex, extract_access_token s = .ok t ex ∧
        s = s.take b ++ tokenPat ++ t ++ expiresPat ++ ex ∧
        b + tokenPat.length + t.length = e) ∧
    (∀ s : List Char,
      (∀ j, ¬ occAt tokenPat s j) ∨ (∀ j, ¬ occAt expiresPat s j) →
      extract_access_token s = .parseError) ∧
    extract_access_token (tokenPat ++ ['X', 'Y', 'Z'] ++ expiresPat ++ ['3', '6', '0', '0'])
      = .ok ['X', 'Y', 'Z'] ['3', '6', '0', '0'] := by
  refine ⟨?_, ?_, by decide⟩
  · intro s b e hb hbmin he hemax hle
    have hf : findSub tokenPat s = some b := findSub_eq_of_first tokenPat s b hb hbmin
    have hr : rfindSub expiresPat s = some e :=
      rfindSub_eq_of_last expiresPat (by decide) s e he hemax
    have hlen : e < s.length := occAt_lt_length expiresPat s e (by decide) he
    set t := (s.drop (b + tokenPat.length)).take (e - (b + tokenPat.length)) with ht
    set ex := s.drop (e + expiresPat.length) with hex
    have hsb : s.drop b = tokenPat ++ s.drop (b + tokenPat.length) := by
      have h1 := isPrefixOf_eq_append tokenPat (s.drop b) hb
      rw [List.drop_drop] at h1
      exact h1
    have hse : s.drop e = expiresPat ++ ex := by
      have h1 := isPrefixOf_eq_append expiresPat (s.drop e) he
      rw [List.drop_drop] at h1
      exact h1
    have h2 : (s.drop (b + tokenPat.length)).drop (e - (b + tokenPat.length)) = s.drop e := by
      rw [List.drop_drop]
      congr 1
      omega
    have hmid : s.drop (b + tokenPat.length) = t ++ s.drop e := by
      conv_lhs => rw [← List.take_append_drop (e - (b + tokenPat.length))
        (s.drop (b + tokenPat.length))]
      rw [h2]
    have htlen : t.length = e - (b + tokenPat.length) := by
      rw [ht, List.length_take, List.length_drop]
      exact Nat.min_eq_left (by omega)
    refine ⟨t, ex, ?_, ?_, ?_⟩
    · simp only [extract_access_token, hf, hr]
      rw [if_pos hle]
    · have hflat : s.take b ++ (tokenPat ++ (t ++ (expiresPat ++ ex))) = s := by
        rw [← hse, ← hmid, ← hsb, List.take_append_drop]
      have hassoc : s.take b ++ tokenPat ++ t ++ expiresPat ++ ex
          = s.take b ++ (tokenPat ++ (t ++ (expiresPat ++ ex))) := by
        simp [List.append_assoc]
      exact (hassoc.trans hflat).symm
    · rw [htlen]
      omega
  · intro s h
    rcases h with h | h
    · cases hf : findSub tokenPat s with
      | none =>
        unfold extract_access_token
        rw [hf]
      | some b => exact absurd (findSub_some tokenPat s b hf).1 (h b)
    · cases hf : findSub tokenPat s with
      | none =>
        unfold extract_access_token
        rw [hf]
      | some b =>
        cases hr : rfindSub expiresPat s with
        | none =>
          unfold extract_access_token
          rw [hf, hr]
        | some e => exact absurd (rfindSub_some expiresPat (by decide) s e hr).1 (h e)

/-- C6 (witness): the decomposition applied to the spec's example body with
first token marker at 0 and last expiry marker at 16. -/
theorem claim_C6_witness :
    ∃ t ex,
      extract_access_token (tokenPat ++ ['X', 'Y', 'Z'] ++ expiresPat ++ ['3', '6', '0', '0'])
        = .ok t ex ∧
      tokenPat ++ ['X', 'Y', 'Z'] ++ expiresPat ++ ['3', '6', '0', '0']
        = (tokenPat ++ ['X', 'Y', 'Z'] ++ expiresPat ++ ['3', '6', '0', '0']).take 0
          ++ tokenPat ++ t ++ expiresPat ++ ex ∧
      0 + tokenPat.length + t.length = 16 :=
  claim_C6_extract_between_markers.1
    (tokenPat ++ ['X', 'Y', 'Z'] ++ expiresPat ++ ['3', '6', '0', '0']) 0 16
    (by decide) (fun j hj => absurd hj (Nat.not_lt_zero j)) (by decide)
    ((rfindSub_some expiresPat (by decide)
      (tokenPat ++ ['X', 'Y', 'Z'] ++ expiresPat ++ ['3', '6', '0', '0']) 16 (by decide)).2)
    (by decide)

/-- Dropping up to `k ≤ p.length` elements of `p ++ r` stays inside `p`. -/
theorem drop_append_le (p r : List Char) (k : Nat) (h : k ≤ p.length) :
    (p ++ r).drop k = p.drop k ++ r := by
  have hl : (p.take k).length = k := by
    rw [List.length_take]
    exact Nat.min_eq_left h
  calc (p ++ r).drop k = ((p.take k ++ p.drop k) ++ r).drop k := by
        rw [List.take_append_drop]
  _ = (p.take k ++ (p.drop k ++ r)).drop k := by rw [List.append_assoc]
  _ = (p.take k ++ (p.drop k ++ r)).drop ((p.take k).length + 0) := by
        rw [hl, Nat.add_zero]
  _ = (p.drop k ++ r).drop 0 := drop_append_plus _ _ 0
  _ = p.drop k ++ r := rfl

/-- `&expires=` cannot overlap a shifted copy of itself: after dropping
`0 < k < 9` of its characters the remainder starts with a character other
than `&`, so the marker is not a prefix of `expiresPat.drop k ++ rest`. -/
theorem expiresPat_no_self_overlap (k : Nat) (h1 : 0 < k)
    (h2 : k < expiresPat.length) (rest : List Char) :
    List.isPrefixOf expiresPat (expiresPat.drop k ++ rest) = false := by
  simp only [expiresPat, List.length_cons, List.length_nil] at h2
  interval_cases k <;> simp [expiresPat, List.isPrefixOf]


/-- In a well-formed stub body `access_token= ++ T ++ &expires= ++ E` whose
expiry part `E` does not itself contain the `&expires=` marker, the last
occurrence of `&expires=` is the literal one, at index `13 + |T|`. -/
theorem rfind_expires_in_body (T E : List Char)
    (hE : occursInB expiresPat E = false) :
    rfindSub expiresPat (tokenPat ++ T ++ expiresPat ++ E)
      = some (tokenPat.length + T.length) := by
  have hassoc : tokenPat ++ T ++ expiresPat ++ E
      = (tokenPat ++ T) ++ (expiresPat ++ E) := by
    simp [List.append_assoc]
  have hlenL : (tokenPat ++ T).length = tokenPat.length + T.length :=
    List.length_append _ _
  have hdrop : ∀ k,
      (tokenPat ++ T ++ expiresPat ++ E).drop (tokenPat.length + T.length + k)
        = (expiresPat ++ E).drop k := by
    intro k
    rw [hassoc, ← hlenL]
    exact drop_append_plus _ _ k
  have hocc : occAt expiresPat (tokenPat ++ T ++ expiresPat ++ E)
      (tokenPat.length + T.length) := by
    show List.isPrefixOf expiresPat
      ((tokenPat ++ T ++ expiresPat ++ E).drop (tokenPat.length + T.length)) = true
    have h0 : (tokenPat ++ T ++ expiresPat ++ E).drop (tokenPat.length + T.length)
        = expiresPat ++ E := by
      have h00 := hdrop 0
      rw [Nat.add_zero, List.drop_zero] at h00
      exact h00
    rw [h0]
    exact isPrefixOf_append _ _
  have hmax : ∀ j, tokenPat.length + T.length < j →
      ¬ occAt expiresPat (tokenPat ++ T ++ expiresPat ++ E) j := by
    intro j hj hocc2
    obtain ⟨k, hk1, rfl⟩ : ∃ k, 0 < k ∧ j = tokenPat.length + T.length + k :=
      ⟨j - (tokenPat.length + T.length), by omega, by omega⟩
    unfold occAt at hocc2
    rw [hdrop k] at hocc2
    by_cases hk9 : k < expiresPat.length
    · rw [drop_append_le expiresPat E k (Nat.le_of_lt hk9)] at hocc2
      rw [expiresPat_no_self_overlap k hk1 hk9 E] at hocc2
      simp at hocc2
    · obtain ⟨m, rfl⟩ : ∃ m, k = expiresPat.length + m :=
        ⟨k - expiresPat.length, by omega⟩
      rw [drop_append_plus] at hocc2
      exact occursInB_false expiresPat E hE m hocc2
  exact rfindSub_eq_of_last expiresPat (by decide) _ _ hocc hmax

/-- On a well-formed stub body whose expiry part does not contain the
`&expires=` marker, `extract_access_token` returns exactly the embedded token
and expiry. -/
theorem extract_well_formed (T E : List Char)
    (hE : occursInB expiresPat E = false) :
    extract_access_token (tokenPat ++ T ++ expiresPat ++ E) = .ok T E := by
  have hassoc : tokenPat ++ T ++ expiresPat ++ E
      = (tokenPat ++ T) ++ (expiresPat ++ E) := by
    simp [List.append_assoc]
  have hassoc2 : tokenPat ++ T ++ expiresPat ++ E
      = tokenPat ++ (T ++ (expiresPat ++ E)) := by
    simp [List.append_assoc]
  have hlenL : (tokenPat ++ T).length = tokenPat.length + T.length :=
    List.length_append _ _
  have hoccb : occAt tokenPat (tokenPat ++ T ++ expiresPat ++ E) 0 := by
    show List.isPrefixOf tokenPat ((tokenPat ++ T ++ expiresPat ++ E).drop 0) = true
    rw [List.drop_zero, hassoc2]
    exact isPrefixOf_append _ _
  have hf : findSub tokenPat (tokenPat ++ T ++ expiresPat ++ E) = some 0 :=
    findSub_eq_of_first _ _ 0 hoccb (fun j hj => absurd hj (Nat.not_lt_zero j))
  have hr := rfind_expires_in_body T E hE
  simp only [extract_access_token, hf, hr]
  rw [if_pos (by omega : 0 + tokenPat.length ≤ tokenPat.length + T.length)]
  have hd13 : (tokenPat ++ T ++ expiresPat ++ E).drop (0 + tokenPat.length)
      = T ++ (expiresPat ++ E) := by
    rw [Nat.zero_add, hassoc2]
    exact List.drop_left _ _
  have hdexp : (tokenPat ++ T ++ expiresPat ++ E).drop
      (tokenPat.length + T.length + expiresPat.length)
      = E := by
    rw [hassoc, ← hlenL, drop_append_plus]
    exact List.drop_left _ _
  rw [hd13, hdexp]
  have htake : tokenPat.length + T.length - (0 + tokenPat.length) = T.length := by
    omega
  rw [htake]
  rw [List.take_left]

/-- The round-trip scenario of the spec: a fresh session, `get_authorize_link`,
`parse_response_code` on a redirect `pre ++ ?code= ++ C`, then
`authenticate_application` with the extracted code against a transport stub
that answers `access_token= ++ T ++ &expires= ++ E`.  Returns the parse result
and the final session with the exchange outcome. -/
def round_trip (T E C pre app uri secret : List Char) :
    Option (List Char) × (AuthDeezer × ExchangeOutcome) :=
  let s1 := (get_authorize_link AuthDeezer.new app uri).1
  let pc := parse_response_code_call s1 (pre ++ qcodePat ++ C)
  (pc.2, authenticate_application pc.1
    (fun _ => some (tokenPat ++ T ++ expiresPat ++ E)) app secret (pc.2.getD []))

/-- C9 (amended): the round trip with a well-formed stub body ends in status
`AuthorizationCompleted` with the stubbed token and expiry, provided — in
addition to the claim's conditions on `T` — the expiry part `E` does not
itself contain the `&expires=` marker (otherwise the last-occurrence rule
splits inside `E`, see the counterexample). -/
theorem claim_C9_amended (T E C pre app uri secret : List Char)
    (hT0 : T ≠ []) (hT1 : occursInB tokenPat T = false)
    (hT2 : occursInB expiresPat T = false)
    (hE : occursInB expiresPat E = false) :
    (round_trip T E C pre app uri secret).1.isSome = true ∧
    (round_trip T E C pre app uri secret).2.2 = .success ∧
    (round_trip T E C pre app uri secret).2.1.status = .AuthorizationCompleted ∧
    get_token (round_trip T E C pre app uri secret).2.1 = T ∧
    (round_trip T E C pre app uri secret).2.1.expires = E := by
  have hparse : (parse_response_code (pre ++ qcodePat ++ C)).isSome = true := by
    have hocc : occAt qcodePat (pre ++ qcodePat ++ C) pre.length := by
      show List.isPrefixOf qcodePat ((pre ++ qcodePat ++ C).drop pre.length) = true
      have hx2 : pre ++ qcodePat ++ C = pre ++ (qcodePat ++ C) := by
        simp [List.append_assoc]
      rw [hx2, List.drop_left]
      exact isPrefixOf_append _ _
    have hsome := rfindSub_isSome_of_occ qcodePat _ pre.length hocc
    unfold parse_response_code
    cases hr : rfindSub qcodePat (pre ++ qcodePat ++ C) with
    | some x => rfl
    | none =>
      rw [hr] at hsome
      simp at hsome
  have hx := extract_well_formed T E hE
  simp only [List.append_assoc] at hx hparse
  refine ⟨?_, ?_, ?_, ?_, ?_⟩ <;>
    simp [round_trip, parse_response_code_call, authenticate_application,
      get_token, save_token, hx, hparse]

/-- C9 (counterexample): with stubbed token `T = "t"` (non-empty, containing
neither marker, as the claim requires) and stubbed expiry
`E = "a&expires=b"`, the round trip succeeds but `get_token` returns
`"t&expires=a"`, not the stubbed token `T`: the last-occurrence rule for
`&expires=` splits inside `E`. -/
theorem claim_C9_counterexample :
    (['t'] : List Char) ≠ [] ∧
    occursInB tokenPat ['t'] = false ∧
    occursInB expiresPat ['t'] = false ∧
    (round_trip ['t'] (['a'] ++ expiresPat ++ ['b']) ['c'] [] ['1'] ['u'] ['s']).2.2
      = .success ∧
    get_token (round_trip ['t'] (['a'] ++ expiresPat ++ ['b']) ['c'] [] ['1'] ['u'] ['s']).2.1
      = ['t'] ++ expiresPat ++ ['a'] ∧
    get_token (round_trip ['t'] (['a'] ++ expiresPat ++ ['b']) ['c'] [] ['1'] ['u'] ['s']).2.1
      ≠ ['t'] := by
  refine ⟨by decide, by decide, by decide, by decide, by decide, by decide⟩

/-- C9 (witness): the amended round trip at the spec's example token and
expiry values. -/
theorem claim_C9_witness :
    (round_trip ['X', 'Y', 'Z'] ['3', '6', '0', '0'] ['c'] [] ['1'] ['u'] ['s']).1.isSome
      = true ∧
    (round_trip ['X', 'Y', 'Z'] ['3', '6', '0', '0'] ['c'] [] ['1'] ['u'] ['s']).2.2
      = .success ∧
    (round_trip ['X', 'Y', 'Z'] ['3', '6', '0', '0'] ['c'] [] ['1'] ['u'] ['s']).2.1.status
      = .AuthorizationCompleted ∧
    get_token (round_trip ['X', 'Y', 'Z'] ['3', '6', '0', '0'] ['c'] [] ['1'] ['u'] ['s']).2.1
      = ['X', 'Y', 'Z'] ∧
    (round_trip ['X', 'Y', 'Z'] ['3', '6', '0', '0'] ['c'] [] ['1'] ['u'] ['s']).2.1.expires
      = ['3', '6', '0', '0'] :=
  claim_C9_amended ['X', 'Y', 'Z'] ['3', '6', '0', '0'] ['c'] [] ['1'] ['u'] ['s']
    (by decide) (by decide) (by decide) (by decide)
